import Mathlib

/-
Verification of the covid data pipeline (src/covid/data_utils.py).

The pipeline processes a table of per-(country, date) rows.  All
operations of `fill_missing_values` and `create_features` act on each
country independently, on that country's rows in date order (the table
is sorted by (Country_Code, DateTime) in `extend_data`).  We therefore
embed a country's series as Lean lists in date order, a table as a list
of (country code, country data) pairs, and the whole-table loops
`for c_code in df['Country_Code'].unique()` as a map over that list.
Pandas floats are embedded as rationals (ℚ), dates as integer day
numbers (ℤ, consecutive calendar days differ by 1).
-/

set_option maxHeartbeats 1000000

namespace Covid



/-- Forward filling of zeros: embeds the pandas idiom
`series.replace(to_replace=0, method='ffill')` used in
`fill_missing_values`.  A zero entry is replaced by the carried last
non-zero value; with no carry (leading zeros) it stays zero; a non-zero
entry is kept and becomes the new carry. -/
def ffillZero (carry : Option ℚ) : List ℚ → List ℚ
  | [] => []
  | x :: xs =>
    if x = 0 then carry.getD 0 :: ffillZero carry xs
    else x :: ffillZero (some x) xs

/-- The last non-zero value of a list, scanning left to right, starting
from a given carry.  Used to state what forward filling produces. -/
def lastNonZero (carry : Option ℚ) (l : List ℚ) : Option ℚ :=
  l.foldl (fun acc x => if x = 0 then acc else some x) carry

/-- Specification-side description of one entry of a forward-filled
column: a non-zero entry is kept, a zero entry becomes the most recent
preceding non-zero value (or stays 0 when there is none). -/
def ffillSpecAt (l : List ℚ) (j : ℕ) : ℚ :=
  if l.getD j 0 = 0 then (lastNonZero none (l.take j)).getD 0 else l.getD j 0

/-- Running cumulative sum with an explicit accumulator: embeds pandas
`Series.cumsum()`. -/
def cumsumFrom (acc : ℚ) : List ℚ → List ℚ
  | [] => []
  | x :: xs => (acc + x) :: cumsumFrom (acc + x) xs

/-- Cumulative sum of a country's column, as used for Pt, Mt, St. -/
def cumsum (l : List ℚ) : List ℚ := cumsumFrom 0 l

/-- Tail of the day-over-day difference: each entry minus its
predecessor, `prev` being the value just before the list. -/
def diffFrom (prev : ℚ) : List ℚ → List ℚ
  | [] => []
  | x :: xs => (x - prev) :: diffFrom x xs

/-- Day-over-day difference of a column: embeds
`Series.diff()` followed by `fillna(0)` — the first row, which has no
predecessor, becomes 0. -/
def diff0 : List ℚ → List ℚ
  | [] => []
  | x :: xs => 0 :: diffFrom x xs

/-- Rowwise sum of two columns (pandas columnwise `+`). -/
def addCols (a b : List ℚ) : List ℚ := List.zipWith (fun x y => x + y) a b

/-- Rowwise sum of the nine S columns: embeds
`df[COL.si_cols].sum(axis=1)`. -/
def sum9 (a b c d e f g h i : List ℚ) : List ℚ :=
  addCols a (addCols b (addCols c (addCols d (addCols e (addCols f (addCols g (addCols h i)))))))

/-! ### Column names (class COL) and feature labels (class FEATURE) -/

namespace COL

def c1 : String := "C1_School_closing"

def c2 : String := "C2_Workplace_closing"

def c3 : String := "C3_Cancel_public_events"

def c4 : String := "C4_Restrictions_on_gatherings"

def c5 : String := "C5_Close_public_transport"

def c6 : String := "C6_Stay_at_home_requirements"

def c7 : String := "C7_Restrictions_on_internal_movement"

def c8 : String := "C8_International_travel_controls"

def h1 : String := "H1_Public_information_campaigns"

def ci_cols : List String := [h1, c1, c2, c3, c4, c5, c6, c7, c8]

end COL

namespace FEATURE

def public_information : String := "S1"

def school_closing : String := "S2"

def workplace_closing : String := "S3"

def cancel_public_events : String := "S4"

def restrictions_on_gatherings : String := "S5"

def close_public_transport : String := "S6"

def stay_at_home_requirements : String := "S7"

def restrictions_on_internal_movement : String := "S8"

def international_travel_controls : String := "S9"

end FEATURE

/-- The indicator id of a raw column name: embeds
`s_id = column.split('_')[0]` in `transform_to_mobility` (the part of
the name before the first underscore). -/
def s_idOf (column : String) : String :=
  String.mk (column.toList.takeWhile (fun c => c ≠ '_'))

/-- Digit parsing of the tail of an indicator id: embeds
`int(s_id[1:])`. -/
def idxOf (column : String) : ℕ :=
  if s_idOf column = "H1" then 9
  else ((s_idOf column).toList.drop 1).foldl (fun n c => 10 * n + (c.toNat - 48)) 0

/-- The derived column name written by `transform_to_mobility` for a
given raw column: embeds `m_id = 'S' + str(idx)`. -/
def m_idOf (column : String) : String := "S" ++ toString (idxOf column)

/-- The core formula of `transform_to_mobility`, per indicator index
`idx` (1..9, where 9 stands for H1).  `si` is the raw ordinal value,
`si_g_in` the scope-flag column value, and `has_flag` tells whether the
indicator has a scope flag (False only for C8); without a flag the
general-scope factor defaults to 1.  Mirrors the if/elif chain of the
source including the weight w = 0.28375 and the unused normalization
factor nf = 1. -/
def transform_to_mobility (idx : ℕ) (si si_g_in : ℚ) (has_flag : Bool) : ℚ :=
  let si_g : ℚ := if has_flag then si_g_in else 1
  let w : ℚ := 0.28375
  let nf : ℚ := 1
  if idx = 3 ∨ idx = 5 ∨ idx = 7 ∨ idx = 9 then nf * (si / 2 * (1 - w) + (w * si_g))
  else if idx = 1 ∨ idx = 2 ∨ idx = 6 then nf * (si / 3 * (1 - w) + (w * si_g))
  else if idx = 4 then nf * (si / 4 * (1 - w) + (w * si_g))
  else if idx = 8 then nf * si / 4
  else 0

/-! ### The fill stage (`fill_missing_values`)

A country's slice of the dataframe between `extend_data` and
`fill_missing_values`: the nine derived S columns, the four
forward-fillable raw series, and the six derived composite columns
(seeded with zeros by `extend_data`).  Rows are in date order. -/
structure FillTab where
  s1 : List ℚ
  s2 : List ℚ
  s3 : List ℚ
  s4 : List ℚ
  s5 : List ℚ
  s6 : List ℚ
  s7 : List ℚ
  s8 : List ℚ
  s9 : List ℚ
  cc : List ℚ
  cd : List ℚ
  rc : List ℚ
  si : List ℚ
  pt : List ℚ
  Pt : List ℚ
  mt : List ℚ
  Mt : List ℚ
  st : List ℚ
  St : List ℚ
deriving DecidableEq

/-- All columns of a country's slice have the row count of the
ConfirmedCases column (one value per (country, date) row). -/
@[reducible] def wfFill (t : FillTab) : Prop :=
  t.s1.length = t.cc.length ∧ t.s2.length = t.cc.length ∧ t.s3.length = t.cc.length ∧
  t.s4.length = t.cc.length ∧ t.s5.length = t.cc.length ∧ t.s6.length = t.cc.length ∧
  t.s7.length = t.cc.length ∧ t.s8.length = t.cc.length ∧ t.s9.length = t.cc.length ∧
  t.cd.length = t.cc.length ∧ t.rc.length = t.cc.length ∧ t.si.length = t.cc.length

/-- One iteration of the country loop of `fill_missing_values`:
forward-fill the zeros of S1..S9, ConfirmedCases, ConfirmedDeaths,
Recovered and StringencyIndex, then compute
pt = sum(S1..S9)/9, Pt = cumsum(pt), mt = 1 - pt, Mt = cumsum(mt),
st = StringencyIndex/100, St = cumsum(st). -/
def fillCountry (t : FillTab) : FillTab :=
  let s1 := ffillZero none t.s1
  let s2 := ffillZero none t.s2
  let s3 := ffillZero none t.s3
  let s4 := ffillZero none t.s4
  let s5 := ffillZero none t.s5
  let s6 := ffillZero none t.s6
  let s7 := ffillZero none t.s7
  let s8 := ffillZero none t.s8
  let s9 := ffillZero none t.s9
  let cc := ffillZero none t.cc
  let cd := ffillZero none t.cd
  let rc := ffillZero none t.rc
  let si := ffillZero none t.si
  let pt := (sum9 s1 s2 s3 s4 s5 s6 s7 s8 s9).map (fun x => x / 9)
  let mt := pt.map (fun x => 1 - x)
  let st := si.map (fun x => x / 100)
  { s1 := s1, s2 := s2, s3 := s3, s4 := s4, s5 := s5, s6 := s6, s7 := s7, s8 := s8, s9 := s9,
    cc := cc, cd := cd, rc := rc, si := si,
    pt := pt, Pt := cumsum pt, mt := mt, Mt := cumsum mt, st := st, St := cumsum st }

/-- `fill_missing_values` over the whole table: the country loop visits
each country's slice independently. -/
def fillTable (T : List (String × FillTab)) : List (String × FillTab) :=
  T.map (fun p => (p.1, fillCountry p.2))

/-- A two-row country slice with zero gaps, used as concrete input for
the witnesses of the fill-stage claims. -/
def fillEx : FillTab :=
  { s1 := [0, 2], s2 := [1, 0], s3 := [0, 0], s4 := [2, 1], s5 := [0, 1], s6 := [1, 0],
    s7 := [0, 0], s8 := [1, 1], s9 := [0, 1],
    cc := [0, 2], cd := [1, 0], rc := [0, 0], si := [50, 0],
    pt := [0, 0], Pt := [0, 0], mt := [0, 0], Mt := [0, 0], st := [0, 0], St := [0, 0] }

/-! ### The extend stage (`extend_data` / `transform_to_mobility`)

A country's slice of the raw input table: the nine ordinal indicator
columns of `COL.ci_cols` with their scope-flag columns (C8 has no
flag), and the raw count/stringency series. -/
structure RawTab where
  h1 : List ℚ
  h1f : List ℚ
  c1 : List ℚ
  f1 : List ℚ
  c2 : List ℚ
  f2 : List ℚ
  c3 : List ℚ
  f3 : List ℚ
  c4 : List ℚ
  f4 : List ℚ
  c5 : List ℚ
  f5 : List ℚ
  c6 : List ℚ
  f6 : List ℚ
  c7 : List ℚ
  f7 : List ℚ
  c8 : List ℚ
  cc : List ℚ
  cd : List ℚ
  rc : List ℚ
  si : List ℚ
deriving DecidableEq

@[reducible] def wfRaw (r : RawTab) : Prop :=
  r.h1.length = r.cc.length ∧ r.h1f.length = r.cc.length ∧
  r.c1.length = r.cc.length ∧ r.f1.length = r.cc.length ∧
  r.c2.length = r.cc.length ∧ r.f2.length = r.cc.length ∧
  r.c3.length = r.cc.length ∧ r.f3.length = r.cc.length ∧
  r.c4.length = r.cc.length ∧ r.f4.length = r.cc.length ∧
  r.c5.length = r.cc.length ∧ r.f5.length = r.cc.length ∧
  r.c6.length = r.cc.length ∧ r.f6.length = r.cc.length ∧
  r.c7.length = r.cc.length ∧ r.f7.length = r.cc.length ∧
  r.c8.length = r.cc.length ∧
  r.cd.length = r.cc.length ∧ r.rc.length = r.cc.length ∧ r.si.length = r.cc.length

/-- The columnwise application of `transform_to_mobility` to an
indicator column and its flag column (the pandas expressions on the
`si`/`si_g` series). -/
def mapT (idx : ℕ) (raws flags : List ℚ) : List ℚ :=
  List.zipWith (fun a b => transform_to_mobility idx a b true) raws flags

/-- One country slice of `extend_data`: each raw indicator column of
`COL.ci_cols` is transformed into its S column (C{k} into S{k}, H1
into S9; C8 with `has_flag=False`), and the six composite feature
columns are seeded with 0.0. -/
def extendCountry (r : RawTab) : FillTab :=
  { s1 := mapT 1 r.c1 r.f1
    s2 := mapT 2 r.c2 r.f2
    s3 := mapT 3 r.c3 r.f3
    s4 := mapT 4 r.c4 r.f4
    s5 := mapT 5 r.c5 r.f5
    s6 := mapT 6 r.c6 r.f6
    s7 := mapT 7 r.c7 r.f7
    s8 := r.c8.map (fun a => transform_to_mobility 8 a 0 false)
    s9 := mapT 9 r.h1 r.h1f
    cc := r.cc, cd := r.cd, rc := r.rc, si := r.si
    pt := List.replicate r.cc.length 0
    Pt := List.replicate r.cc.length 0
    mt := List.replicate r.cc.length 0
    Mt := List.replicate r.cc.length 0
    st := List.replicate r.cc.length 0
    St := List.replicate r.cc.length 0 }

/-- A two-row raw country slice with in-range ordinals and flags, used
as concrete input for the monotonicity witness. -/
def rawEx : RawTab :=
  { h1 := [1, 0], h1f := [1, 0], c1 := [2, 0], f1 := [0, 1], c2 := [3, 3], f2 := [1, 1],
    c3 := [0, 2], f3 := [0, 0], c4 := [4, 0], f4 := [1, 0], c5 := [1, 1], f5 := [0, 1],
    c6 := [0, 0], f6 := [0, 0], c7 := [2, 2], f7 := [1, 1], c8 := [3, 4],
    cc := [0, 5], cd := [0, 0], rc := [0, 1], si := [100, 0] }

/-! ### The feature stage (`create_features`)

A country's slice of the table entering `create_features`: date (as an
integer day number — consecutive calendar days differ by 1), the three
filled count series, and the country's population from the left-outer
merge with the world-population table (`none` when the merge found no
match, i.e. the pandas NaN). -/
structure FeatIn where
  date : List ℤ
  cc : List ℚ
  cd : List ℚ
  rc : List ℚ
  pop : Option ℚ
deriving DecidableEq

@[reducible] def wfFeat (t : FeatIn) : Prop :=
  t.date.length = t.cc.length ∧ t.cd.length = t.cc.length ∧ t.rc.length = t.cc.length

/-- The dates of the rows with ConfirmedCases > 0: embeds
`df.loc[(df.Country_Code == c) & (df.ConfirmedCases > 0)]['DateTime']`. -/
def posDates (ds : List ℤ) (cs : List ℚ) : List ℤ :=
  (ds.zip cs).filterMap (fun p => if 0 < p.2 then some p.1 else none)

/-- `dates.min()` over the positive-case rows; `none` for a country
with no positive row (the pandas NaN min of an empty selection). -/
def firstCaseDate (ds : List ℤ) (cs : List ℚ) : Option ℤ :=
  (posDates ds cs).min?

/-- The DaysCountFromFirstCase column: rows with ConfirmedCases > 0 get
`date - dates.min()` in days, all other rows keep the seeded 0. -/
def daysCount (ds : List ℤ) (cs : List ℚ) : List ℤ :=
  (ds.zip cs).map (fun p => if 0 < p.2 then p.1 - (firstCaseDate ds cs).getD 0 else 0)

/-- A country's slice after `create_features`: the inputs plus Active,
the four relative-rate columns (`none` per row when Population is
missing, as NaN propagates through the division), the four daily-delta
columns and DaysCountFromFirstCase. -/
structure FeatOut where
  date : List ℤ
  cc : List ℚ
  cd : List ℚ
  rc : List ℚ
  pop : Option ℚ
  active : List ℚ
  relCC : List (Option ℚ)
  relCD : List (Option ℚ)
  relRC : List (Option ℚ)
  relAC : List (Option ℚ)
  dailyCC : List ℚ
  dailyCD : List ℚ
  dailyRC : List ℚ
  dailyAC : List ℚ
  dcfc : List ℤ
deriving DecidableEq

/-- One country slice of `create_features`:
Active = ConfirmedCases - ConfirmedDeaths - Recovered, relative rates
divide by Population, daily columns are `diff()` with the first NaN
replaced by 0, and DaysCountFromFirstCase counts days from the first
positive-case date. -/
def featuresCountry (t : FeatIn) : FeatOut :=
  let active := List.zipWith (fun a b => a - b)
    (List.zipWith (fun a b => a - b) t.cc t.cd) t.rc
  { date := t.date, cc := t.cc, cd := t.cd, rc := t.rc, pop := t.pop
    active := active
    relCC := t.cc.map (fun x => t.pop.map (fun p => x / p))
    relCD := t.cd.map (fun x => t.pop.map (fun p => x / p))
    relRC := t.rc.map (fun x => t.pop.map (fun p => x / p))
    relAC := active.map (fun x => t.pop.map (fun p => x / p))
    dailyCC := diff0 t.cc
    dailyCD := diff0 t.cd
    dailyRC := diff0 t.rc
    dailyAC := diff0 active
    dcfc := daysCount t.date t.cc }

/-- `create_features` over the whole table: the country loop visits
each country's slice independently. -/
def featTable (T : List (String × FeatIn)) : List (String × FeatOut) :=
  T.map (fun p => (p.1, featuresCountry p.2))

instance : Std.Antisymm (fun x1 x2 : ℤ => x1 ≤ x2) :=
  ⟨fun h1 h2 => le_antisymm h1 h2⟩

/-- A five-row country slice with ConfirmedCases = [0,0,5,5,12] on
consecutive days, mirroring the example of the specification. -/
def featEx : FeatIn :=
  { date := [100, 101, 102, 103, 104], cc := [0, 0, 5, 5, 12],
    cd := [0, 0, 1, 1, 2], rc := [0, 0, 0, 2, 3], pop := some 1000000 }

/-- A one-row country slice mirroring the specification's
relative-rate example: ConfirmedCases = 100, Population = 1,000,000. -/
def featEx2 : FeatIn :=
  { date := [200], cc := [100], cd := [0], rc := [0], pop := some 1000000 }

/-- A variant of `featEx` for country AAA, used to mutate one country's
raw series in the noninterference witness. -/
def featEx3 : FeatIn :=
  { date := [1], cc := [3], cd := [0], rc := [0], pop := none }

/-- Claim C1: for every indicator index i in 1..9 with raw ordinal
value raw and scope-flag value flag, the mobility transform computes
S_i = raw/d * (1 - 0.28375) + 0.28375 * flag with d = 2 for
i ∈ {3,5,7,9}, d = 3 for i ∈ {1,2,6}, d = 4 for i = 4; for i = 8 it
computes S8 = raw/4 with no flag term (independent of the flag value
and of the has_flag switch); in particular i = 1, raw = 2, flag = 1
gives exactly 0.76125, and i = 8, raw = 3 gives exactly 0.75. -/
theorem mobility_formula_exact :
    (∀ raw flag : ℚ,
      transform_to_mobility 3 raw flag true = raw / 2 * (1 - 0.28375) + 0.28375 * flag ∧
      transform_to_mobility 5 raw flag true = raw / 2 * (1 - 0.28375) + 0.28375 * flag ∧
      transform_to_mobility 7 raw flag true = raw / 2 * (1 - 0.28375) + 0.28375 * flag ∧
      transform_to_mobility 9 raw flag true = raw / 2 * (1 - 0.28375) + 0.28375 * flag ∧
      transform_to_mobility 1 raw flag true = raw / 3 * (1 - 0.28375) + 0.28375 * flag ∧
      transform_to_mobility 2 raw flag true = raw / 3 * (1 - 0.28375) + 0.28375 * flag ∧
      transform_to_mobility 6 raw flag true = raw / 3 * (1 - 0.28375) + 0.28375 * flag ∧
      transform_to_mobility 4 raw flag true = raw / 4 * (1 - 0.28375) + 0.28375 * flag ∧
      (∀ b : Bool, transform_to_mobility 8 raw flag b = raw / 4)) ∧
    transform_to_mobility 1 2 1 true = 0.76125 ∧
    (∀ flag : ℚ, ∀ b : Bool, transform_to_mobility 8 3 flag b = 0.75) := by
  refine ⟨fun raw flag => ⟨?_, ?_, ?_, ?_, ?_, ?_, ?_, ?_, fun b => ?_⟩, ?_, fun flag b => ?_⟩
  all_goals norm_num [transform_to_mobility]

/-! ### Claim C10 -/

/-- Claim C10: `transform_to_mobility` writes raw column C{k} into
derived column S{k} (k = 1..8) and H1 into S9, so every FEATURE label
S1..S9 is shifted by one position from the data it names:
FEATURE.public_information is 'S1' although S1 holds transformed C1
(school closing), FEATURE.school_closing is 'S2' while school closing
is in S1, ..., FEATURE.international_travel_controls is 'S9' while
travel controls are in S8. -/
theorem feature_labels_shifted :
    (m_idOf COL.c1 = "S1" ∧ m_idOf COL.c2 = "S2" ∧ m_idOf COL.c3 = "S3" ∧
     m_idOf COL.c4 = "S4" ∧ m_idOf COL.c5 = "S5" ∧ m_idOf COL.c6 = "S6" ∧
     m_idOf COL.c7 = "S7" ∧ m_idOf COL.c8 = "S8" ∧ m_idOf COL.h1 = "S9") ∧
    (FEATURE.public_information = "S1" ∧
     FEATURE.public_information = m_idOf COL.c1 ∧
     FEATURE.public_information ≠ m_idOf COL.h1) ∧
    (FEATURE.school_closing = "S2" ∧
     FEATURE.school_closing = m_idOf COL.c2 ∧
     FEATURE.school_closing ≠ m_idOf COL.c1) ∧
    (FEATURE.workplace_closing = m_idOf COL.c3 ∧
     FEATURE.workplace_closing ≠ m_idOf COL.c2) ∧
    (FEATURE.cancel_public_events = m_idOf COL.c4 ∧
     FEATURE.cancel_public_events ≠ m_idOf COL.c3) ∧
    (FEATURE.restrictions_on_gatherings = m_idOf COL.c5 ∧
     FEATURE.restrictions_on_gatherings ≠ m_idOf COL.c4) ∧
    (FEATURE.close_public_transport = m_idOf COL.c6 ∧
     FEATURE.close_public_transport ≠ m_idOf COL.c5) ∧
    (FEATURE.stay_at_home_requirements = m_idOf COL.c7 ∧
     FEATURE.stay_at_home_requirements ≠ m_idOf COL.c6) ∧
    (FEATURE.restrictions_on_internal_movement = m_idOf COL.c8 ∧
     FEATURE.restrictions_on_internal_movement ≠ m_idOf COL.c7) ∧
    (FEATURE.international_travel_controls = "S9" ∧
     FEATURE.international_travel_controls = m_idOf COL.h1 ∧
     FEATURE.international_travel_controls ≠ m_idOf COL.c8) := by
  decide

/-! ### Helper lemmas on the list primitives -/

theorem ffillZero_length (l : List ℚ) : ∀ c, (ffillZero c l).length = l.length := by
  induction l with
  | nil => intro c; rfl
  | cons x xs ih =>
    intro c
    by_cases hx : x = 0 <;> simp [ffillZero, hx, ih]

theorem cumsumFrom_length (l : List ℚ) : ∀ a, (cumsumFrom a l).length = l.length := by
  induction l with
  | nil => intro a; rfl
  | cons x xs ih => intro a; simp [cumsumFrom, ih]

theorem cumsum_length (l : List ℚ) : (cumsum l).length = l.length :=
  cumsumFrom_length l 0

theorem lastNonZero_cons (c : Option ℚ) (x : ℚ) (l : List ℚ) :
    lastNonZero c (x :: l) = lastNonZero (if x = 0 then c else some x) l := rfl

theorem ffillZero_getD (l : List ℚ) : ∀ (c : Option ℚ) (j : ℕ), j < l.length →
    (ffillZero c l).getD j 0 =
      if l.getD j 0 = 0 then (lastNonZero c (l.take j)).getD 0 else l.getD j 0 := by
  induction l with
  | nil => intro c j h; simp at h
  | cons x xs ih =>
    intro c j h
    cases j with
    | zero =>
      by_cases hx : x = 0 <;> simp [ffillZero, lastNonZero, hx]
    | succ j =>
      have hj : j < xs.length := by simpa using h
      by_cases hx : x = 0
      · simpa [ffillZero, hx, List.take_succ_cons, lastNonZero_cons] using ih c j hj
      · simpa [ffillZero, hx, List.take_succ_cons, lastNonZero_cons] using ih (some x) j hj

theorem ffillZero_idem (l : List ℚ) : ∀ c, ffillZero c (ffillZero c l) = ffillZero c l := by
  induction l with
  | nil => intro c; rfl
  | cons x xs ih =>
    intro c
    by_cases hx : x = 0
    · cases c with
      | none => simpa [ffillZero, hx] using ih none
      | some y =>
        by_cases hy : y = 0
        · subst hy
          simpa [ffillZero, hx] using ih (some 0)
        · simp [ffillZero, hx, hy, ih (some y)]
    · simp [ffillZero, hx, ih (some x)]

theorem ffillZero_pred (P : ℚ → Prop) (h0 : P 0) (l : List ℚ) :
    ∀ c : Option ℚ, (∀ y, c = some y → P y) → (∀ x ∈ l, x ≠ 0 → P x) →
    ∀ x ∈ ffillZero c l, P x := by
  induction l with
  | nil => intro c _ _ x hx; simp [ffillZero] at hx
  | cons z zs ih =>
    intro c hc hl x hx
    by_cases hz : z = 0
    · simp only [ffillZero, hz, if_pos] at hx
      rcases List.mem_cons.mp hx with hx | hx
      · cases c with
        | none => simpa [hx] using h0
        | some y => rw [hx]; simpa using hc y rfl
      · exact ih c hc (fun u hu => hl u (List.mem_cons_of_mem z hu)) x hx
    · simp only [ffillZero, hz, if_neg, not_false_iff] at hx
      rcases List.mem_cons.mp hx with hx | hx
      · rw [hx]; exact hl z (List.mem_cons_self z zs) hz
      · refine ih (some z) ?_ (fun u hu => hl u (List.mem_cons_of_mem z hu)) x hx
        intro y hy
        cases hy
        exact hl z (List.mem_cons_self z zs) hz

theorem ffillZero_allzero (l : List ℚ) (h : ∀ x ∈ l, x = 0) : ffillZero none l = l := by
  induction l with
  | nil => rfl
  | cons x xs ih =>
    have hx : x = 0 := h x (List.mem_cons_self x xs)
    simp [ffillZero, hx, ih (fun u hu => h u (List.mem_cons_of_mem x hu))]

theorem cumsumFrom_getD (l : List ℚ) : ∀ (a : ℚ) (j : ℕ), j < l.length →
    (cumsumFrom a l).getD j 0 =
      a + Finset.sum (Finset.range (j + 1)) (fun k => l.getD k 0) := by
  induction l with
  | nil => intro a j h; simp at h
  | cons x xs ih =>
    intro a j h
    cases j with
    | zero => simp [cumsumFrom]
    | succ j =>
      have hj : j < xs.length := by simpa using h
      have hstep : (cumsumFrom a (x :: xs)).getD (j + 1) 0 =
          (cumsumFrom (a + x) xs).getD j 0 := rfl
      rw [hstep, ih (a + x) j hj,
        Finset.sum_range_succ' (fun k => (x :: xs).getD k 0) (j + 1)]
      simp only [List.getD_cons_succ, List.getD_cons_zero]
      ring

theorem cumsum_getD (l : List ℚ) (j : ℕ) (h : j < l.length) :
    (cumsum l).getD j 0 = Finset.sum (Finset.range (j + 1)) (fun k => l.getD k 0) := by
  simpa [cumsum] using cumsumFrom_getD l 0 j h

theorem cumsum_step (l : List ℚ) (j : ℕ) (h : j + 1 < l.length) :
    (cumsum l).getD (j + 1) 0 = (cumsum l).getD j 0 + l.getD (j + 1) 0 := by
  rw [cumsum_getD l (j + 1) h, cumsum_getD l j (by omega),
    Finset.sum_range_succ (fun k => l.getD k 0) (j + 1)]

theorem getD_map {α β : Type} (f : α → β) (l : List α) (j : ℕ) (d : α) (e : β)
    (h : j < l.length) : (l.map f).getD j e = f (l.getD j d) := by
  rw [List.getD_eq_getElem _ _ (by simpa using h), List.getD_eq_getElem _ _ h,
    List.getElem_map]

theorem getD_zipWith (f : ℚ → ℚ → ℚ) (a b : List ℚ) (j : ℕ)
    (ha : j < a.length) (hb : j < b.length) :
    (List.zipWith f a b).getD j 0 = f (a.getD j 0) (b.getD j 0) := by
  have h : j < (List.zipWith f a b).length := by
    rw [List.length_zipWith]; exact lt_min ha hb
  rw [List.getD_eq_getElem _ _ h, List.getD_eq_getElem _ _ ha,
    List.getD_eq_getElem _ _ hb, List.getElem_zipWith]

theorem getD_mem {α : Type} (l : List α) (j : ℕ) (d : α) (h : j < l.length) :
    l.getD j d ∈ l := by
  rw [List.getD_eq_getElem _ _ h]
  exact List.getElem_mem h

theorem mem_zipWith_ex {f : ℚ → ℚ → ℚ} (a : List ℚ) :
    ∀ (b : List ℚ) (x : ℚ), x ∈ List.zipWith f a b → ∃ u ∈ a, ∃ v ∈ b, x = f u v := by
  induction a with
  | nil => intro b x h; simp at h
  | cons y ys ih =>
    intro b x h
    cases b with
    | nil => simp at h
    | cons z zs =>
      rcases List.mem_cons.mp h with h | h
      · exact ⟨y, List.mem_cons_self y ys, z, List.mem_cons_self z zs, h⟩
      · obtain ⟨u, hu, v, hv, hx⟩ := ih zs x h
        exact ⟨u, List.mem_cons_of_mem y hu, v, List.mem_cons_of_mem z hv, hx⟩

/-! ### Projections of `fillCountry` -/

theorem fillCountry_s1 (t : FillTab) : (fillCountry t).s1 = ffillZero none t.s1 := rfl

theorem fillCountry_s2 (t : FillTab) : (fillCountry t).s2 = ffillZero none t.s2 := rfl

theorem fillCountry_s3 (t : FillTab) : (fillCountry t).s3 = ffillZero none t.s3 := rfl

theorem fillCountry_s4 (t : FillTab) : (fillCountry t).s4 = ffillZero none t.s4 := rfl

theorem fillCountry_s5 (t : FillTab) : (fillCountry t).s5 = ffillZero none t.s5 := rfl

theorem fillCountry_s6 (t : FillTab) : (fillCountry t).s6 = ffillZero none t.s6 := rfl

theorem fillCountry_s7 (t : FillTab) : (fillCountry t).s7 = ffillZero none t.s7 := rfl

theorem fillCountry_s8 (t : FillTab) : (fillCountry t).s8 = ffillZero none t.s8 := rfl

theorem fillCountry_s9 (t : FillTab) : (fillCountry t).s9 = ffillZero none t.s9 := rfl

theorem fillCountry_cc (t : FillTab) : (fillCountry t).cc = ffillZero none t.cc := rfl

theorem fillCountry_cd (t : FillTab) : (fillCountry t).cd = ffillZero none t.cd := rfl

theorem fillCountry_rc (t : FillTab) : (fillCountry t).rc = ffillZero none t.rc := rfl

theorem fillCountry_si (t : FillTab) : (fillCountry t).si = ffillZero none t.si := rfl

theorem fillCountry_pt (t : FillTab) :
    (fillCountry t).pt =
      (sum9 (ffillZero none t.s1) (ffillZero none t.s2) (ffillZero none t.s3)
        (ffillZero none t.s4) (ffillZero none t.s5) (ffillZero none t.s6)
        (ffillZero none t.s7) (ffillZero none t.s8) (ffillZero none t.s9)).map
        (fun x => x / 9) := rfl

theorem fillCountry_mt (t : FillTab) :
    (fillCountry t).mt = (fillCountry t).pt.map (fun x => 1 - x) := rfl

theorem fillCountry_st (t : FillTab) :
    (fillCountry t).st = (ffillZero none t.si).map (fun x => x / 100) := rfl

theorem fillCountry_Pt (t : FillTab) : (fillCountry t).Pt = cumsum (fillCountry t).pt := rfl

theorem fillCountry_Mt (t : FillTab) : (fillCountry t).Mt = cumsum (fillCountry t).mt := rfl

theorem fillCountry_St (t : FillTab) : (fillCountry t).St = cumsum (fillCountry t).st := rfl

/-! ### Lengths and entries of the rowwise nine-column sum -/

theorem sum9_length_eq (a b c d e f g h i : List ℚ) (n : ℕ)
    (ha : a.length = n) (hb : b.length = n) (hc : c.length = n) (hd : d.length = n)
    (he : e.length = n) (hf : f.length = n) (hg : g.length = n) (hh : h.length = n)
    (hi : i.length = n) : (sum9 a b c d e f g h i).length = n := by
  simp [sum9, addCols, List.length_zipWith, ha, hb, hc, hd, he, hf, hg, hh, hi, min_self]

theorem sum9_getD (a b c d e f g h i : List ℚ) (n : ℕ) (j : ℕ)
    (ha : a.length = n) (hb : b.length = n) (hc : c.length = n) (hd : d.length = n)
    (he : e.length = n) (hf : f.length = n) (hg : g.length = n) (hh : h.length = n)
    (hi : i.length = n) (hj : j < n) :
    (sum9 a b c d e f g h i).getD j 0 =
      a.getD j 0 + b.getD j 0 + c.getD j 0 + d.getD j 0 + e.getD j 0 + f.getD j 0 +
      g.getD j 0 + h.getD j 0 + i.getD j 0 := by
  have l8 : (addCols h i).length = n := by
    rw [addCols, List.length_zipWith, hh, hi, min_self]
  have l7 : (addCols g (addCols h i)).length = n := by
    rw [addCols, List.length_zipWith, hg, l8, min_self]
  have l6 : (addCols f (addCols g (addCols h i))).length = n := by
    rw [addCols, List.length_zipWith, hf, l7, min_self]
  have l5 : (addCols e (addCols f (addCols g (addCols h i)))).length = n := by
    rw [addCols, List.length_zipWith, he, l6, min_self]
  have l4 : (addCols d (addCols e (addCols f (addCols g (addCols h i))))).length = n := by
    rw [addCols, List.length_zipWith, hd, l5, min_self]
  have l3 : (addCols c (addCols d (addCols e (addCols f (addCols g (addCols h i)))))).length
      = n := by
    rw [addCols, List.length_zipWith, hc, l4, min_self]
  have l2 : (addCols b (addCols c (addCols d (addCols e (addCols f
      (addCols g (addCols h i))))))).length = n := by
    rw [addCols, List.length_zipWith, hb, l3, min_self]
  have t8 := getD_zipWith (fun x y => x + y) h i j (hh ▸ hj) (hi ▸ hj)
  have t7 := getD_zipWith (fun x y => x + y) g (addCols h i) j (hg ▸ hj) (l8 ▸ hj)
  have t6 := getD_zipWith (fun x y => x + y) f (addCols g (addCols h i)) j
    (hf ▸ hj) (l7 ▸ hj)
  have t5 := getD_zipWith (fun x y => x + y) e (addCols f (addCols g (addCols h i))) j
    (he ▸ hj) (l6 ▸ hj)
  have t4 := getD_zipWith (fun x y => x + y) d
    (addCols e (addCols f (addCols g (addCols h i)))) j (hd ▸ hj) (l5 ▸ hj)
  have t3 := getD_zipWith (fun x y => x + y) c
    (addCols d (addCols e (addCols f (addCols g (addCols h i))))) j (hc ▸ hj) (l4 ▸ hj)
  have t2 := getD_zipWith (fun x y => x + y) b
    (addCols c (addCols d (addCols e (addCols f (addCols g (addCols h i)))))) j
    (hb ▸ hj) (l3 ▸ hj)
  have t1 := getD_zipWith (fun x y => x + y) a
    (addCols b (addCols c (addCols d (addCols e (addCols f (addCols g (addCols h i))))))) j
    (ha ▸ hj) (l2 ▸ hj)
  simp only [addCols] at t1 t2 t3 t4 t5 t6 t7 t8
  simp only [sum9, addCols]
  rw [t1, t2, t3, t4, t5, t6, t7, t8]
  ring

/-- Lengths of the derived composite columns of `fillCountry`. -/
theorem fillCountry_len (t : FillTab) (hw : wfFill t) :
    (fillCountry t).pt.length = t.cc.length ∧
    (fillCountry t).mt.length = t.cc.length ∧
    (fillCountry t).st.length = t.cc.length := by
  obtain ⟨h1, h2, h3, h4, h5, h6, h7, h8, h9, hcd, hrc, hsi⟩ := hw
  have hpt : (fillCountry t).pt.length = t.cc.length := by
    rw [fillCountry_pt, List.length_map]
    exact sum9_length_eq _ _ _ _ _ _ _ _ _ _
      ((ffillZero_length t.s1 none).trans h1) ((ffillZero_length t.s2 none).trans h2)
      ((ffillZero_length t.s3 none).trans h3) ((ffillZero_length t.s4 none).trans h4)
      ((ffillZero_length t.s5 none).trans h5) ((ffillZero_length t.s6 none).trans h6)
      ((ffillZero_length t.s7 none).trans h7) ((ffillZero_length t.s8 none).trans h8)
      ((ffillZero_length t.s9 none).trans h9)
  refine ⟨hpt, ?_, ?_⟩
  · rw [fillCountry_mt, List.length_map, hpt]
  · rw [fillCountry_st, List.length_map, ffillZero_length, hsi]

/-! ### Claim C2 -/

/-- Claim C2: for each country, `fill_missing_values` replaces every
zero value of S1..S9, ConfirmedCases, ConfirmedDeaths, Recovered and
StringencyIndex with the most recent preceding non-zero value of that
country's date-ordered series (`ffillSpecAt`, which also leaves leading
zeros — zeros with no preceding non-zero value — at zero), and a column
that is all zero stays unchanged. -/
theorem forward_fill_spec (t : FillTab) (hw : wfFill t) (j : ℕ) (hj : j < t.cc.length) :
    ((fillCountry t).s1.getD j 0 = ffillSpecAt t.s1 j ∧
     (fillCountry t).s2.getD j 0 = ffillSpecAt t.s2 j ∧
     (fillCountry t).s3.getD j 0 = ffillSpecAt t.s3 j ∧
     (fillCountry t).s4.getD j 0 = ffillSpecAt t.s4 j ∧
     (fillCountry t).s5.getD j 0 = ffillSpecAt t.s5 j ∧
     (fillCountry t).s6.getD j 0 = ffillSpecAt t.s6 j ∧
     (fillCountry t).s7.getD j 0 = ffillSpecAt t.s7 j ∧
     (fillCountry t).s8.getD j 0 = ffillSpecAt t.s8 j ∧
     (fillCountry t).s9.getD j 0 = ffillSpecAt t.s9 j) ∧
    ((fillCountry t).cc.getD j 0 = ffillSpecAt t.cc j ∧
     (fillCountry t).cd.getD j 0 = ffillSpecAt t.cd j ∧
     (fillCountry t).rc.getD j 0 = ffillSpecAt t.rc j ∧
     (fillCountry t).si.getD j 0 = ffillSpecAt t.si j) ∧
    (((∀ x ∈ t.s1, x = 0) → (fillCountry t).s1 = t.s1) ∧
     ((∀ x ∈ t.s2, x = 0) → (fillCountry t).s2 = t.s2) ∧
     ((∀ x ∈ t.s3, x = 0) → (fillCountry t).s3 = t.s3) ∧
     ((∀ x ∈ t.s4, x = 0) → (fillCountry t).s4 = t.s4) ∧
     ((∀ x ∈ t.s5, x = 0) → (fillCountry t).s5 = t.s5) ∧
     ((∀ x ∈ t.s6, x = 0) → (fillCountry t).s6 = t.s6) ∧
     ((∀ x ∈ t.s7, x = 0) → (fillCountry t).s7 = t.s7) ∧
     ((∀ x ∈ t.s8, x = 0) → (fillCountry t).s8 = t.s8) ∧
     ((∀ x ∈ t.s9, x = 0) → (fillCountry t).s9 = t.s9) ∧
     ((∀ x ∈ t.cc, x = 0) → (fillCountry t).cc = t.cc) ∧
     ((∀ x ∈ t.cd, x = 0) → (fillCountry t).cd = t.cd) ∧
     ((∀ x ∈ t.rc, x = 0) → (fillCountry t).rc = t.rc) ∧
     ((∀ x ∈ t.si, x = 0) → (fillCountry t).si = t.si)) := by
  obtain ⟨h1, h2, h3, h4, h5, h6, h7, h8, h9, hcd, hrc, hsi⟩ := hw
  simp only [fillCountry_s1, fillCountry_s2, fillCountry_s3, fillCountry_s4,
    fillCountry_s5, fillCountry_s6, fillCountry_s7, fillCountry_s8, fillCountry_s9,
    fillCountry_cc, fillCountry_cd, fillCountry_rc, fillCountry_si, ffillSpecAt]
  exact ⟨⟨ffillZero_getD t.s1 none j (h1 ▸ hj), ffillZero_getD t.s2 none j (h2 ▸ hj),
      ffillZero_getD t.s3 none j (h3 ▸ hj), ffillZero_getD t.s4 none j (h4 ▸ hj),
      ffillZero_getD t.s5 none j (h5 ▸ hj), ffillZero_getD t.s6 none j (h6 ▸ hj),
      ffillZero_getD t.s7 none j (h7 ▸ hj), ffillZero_getD t.s8 none j (h8 ▸ hj),
      ffillZero_getD t.s9 none j (h9 ▸ hj)⟩,
    ⟨ffillZero_getD t.cc none j hj, ffillZero_getD t.cd none j (hcd ▸ hj),
      ffillZero_getD t.rc none j (hrc ▸ hj), ffillZero_getD t.si none j (hsi ▸ hj)⟩,
    ffillZero_allzero t.s1, ffillZero_allzero t.s2, ffillZero_allzero t.s3,
    ffillZero_allzero t.s4, ffillZero_allzero t.s5, ffillZero_allzero t.s6,
    ffillZero_allzero t.s7, ffillZero_allzero t.s8, ffillZero_allzero t.s9,
    ffillZero_allzero t.cc, ffillZero_allzero t.cd, ffillZero_allzero t.rc,
    ffillZero_allzero t.si⟩

theorem forward_fill_spec_witness :
    (fillCountry fillEx).s2.getD 1 0 = ffillSpecAt fillEx.s2 1 :=
  (forward_fill_spec fillEx (by decide) 1 (by decide)).1.2.1

/-! ### Claim C3 -/

/-- Claim C3: after filling, pt is the arithmetic mean of S1..S9
(their sum divided by 9), mt = 1 - pt, st = StringencyIndex/100, and
Pt, Mt, St are the running cumulative sums of pt, mt, st over the
country's date-ordered rows. -/
theorem composite_columns_spec (t : FillTab) (hw : wfFill t) (j : ℕ)
    (hj : j < t.cc.length) :
    (fillCountry t).pt.getD j 0 =
      ((fillCountry t).s1.getD j 0 + (fillCountry t).s2.getD j 0 +
       (fillCountry t).s3.getD j 0 + (fillCountry t).s4.getD j 0 +
       (fillCountry t).s5.getD j 0 + (fillCountry t).s6.getD j 0 +
       (fillCountry t).s7.getD j 0 + (fillCountry t).s8.getD j 0 +
       (fillCountry t).s9.getD j 0) / 9 ∧
    (fillCountry t).mt.getD j 0 = 1 - (fillCountry t).pt.getD j 0 ∧
    (fillCountry t).st.getD j 0 = (fillCountry t).si.getD j 0 / 100 ∧
    (fillCountry t).Pt.getD j 0 =
      Finset.sum (Finset.range (j + 1)) (fun k => (fillCountry t).pt.getD k 0) ∧
    (fillCountry t).Mt.getD j 0 =
      Finset.sum (Finset.range (j + 1)) (fun k => (fillCountry t).mt.getD k 0) ∧
    (fillCountry t).St.getD j 0 =
      Finset.sum (Finset.range (j + 1)) (fun k => (fillCountry t).st.getD k 0) := by
  obtain ⟨hpt, hmt, hst⟩ := fillCountry_len t hw
  obtain ⟨h1, h2, h3, h4, h5, h6, h7, h8, h9, hcd, hrc, hsi⟩ := hw
  have hsum : (sum9 (ffillZero none t.s1) (ffillZero none t.s2) (ffillZero none t.s3)
      (ffillZero none t.s4) (ffillZero none t.s5) (ffillZero none t.s6)
      (ffillZero none t.s7) (ffillZero none t.s8) (ffillZero none t.s9)).length
      = t.cc.length :=
    sum9_length_eq _ _ _ _ _ _ _ _ _ _
      ((ffillZero_length t.s1 none).trans h1) ((ffillZero_length t.s2 none).trans h2)
      ((ffillZero_length t.s3 none).trans h3) ((ffillZero_length t.s4 none).trans h4)
      ((ffillZero_length t.s5 none).trans h5) ((ffillZero_length t.s6 none).trans h6)
      ((ffillZero_length t.s7 none).trans h7) ((ffillZero_length t.s8 none).trans h8)
      ((ffillZero_length t.s9 none).trans h9)
  refine ⟨?_, ?_, ?_, ?_, ?_, ?_⟩
  · rw [fillCountry_pt, getD_map _ _ j 0 0 (hsum ▸ hj),
      sum9_getD _ _ _ _ _ _ _ _ _ t.cc.length j
        ((ffillZero_length t.s1 none).trans h1) ((ffillZero_length t.s2 none).trans h2)
        ((ffillZero_length t.s3 none).trans h3) ((ffillZero_length t.s4 none).trans h4)
        ((ffillZero_length t.s5 none).trans h5) ((ffillZero_length t.s6 none).trans h6)
        ((ffillZero_length t.s7 none).trans h7) ((ffillZero_length t.s8 none).trans h8)
        ((ffillZero_length t.s9 none).trans h9) hj,
      fillCountry_s1, fillCountry_s2, fillCountry_s3, fillCountry_s4, fillCountry_s5,
      fillCountry_s6, fillCountry_s7, fillCountry_s8, fillCountry_s9]
  · rw [fillCountry_mt, getD_map _ _ j 0 0 (hpt ▸ hj)]
  · rw [fillCountry_st, fillCountry_si,
      getD_map _ _ j 0 0 ((ffillZero_length t.si none).trans hsi ▸ hj)]
  · rw [fillCountry_Pt, cumsum_getD _ j (hpt ▸ hj)]
  · rw [fillCountry_Mt, cumsum_getD _ j (hmt ▸ hj)]
  · rw [fillCountry_St, cumsum_getD _ j (hst ▸ hj)]

theorem composite_columns_spec_witness :
    (fillCountry fillEx).st.getD 1 0 = (fillCountry fillEx).si.getD 1 0 / 100 :=
  (composite_columns_spec fillEx (by decide) 1 (by decide)).2.2.1

/-! ### Claim C7 -/

/-- Claim C7: `fill_missing_values` is idempotent — running it a second
time on an already-processed table (per country and for the whole
table) changes no value in any column: nothing new is forward-filled
and the recomputed pt, Pt, mt, Mt, st, St equal their existing
values. -/
theorem fill_idempotent :
    (∀ t : FillTab, fillCountry (fillCountry t) = fillCountry t) ∧
    (∀ T : List (String × FillTab), fillTable (fillTable T) = fillTable T) := by
  have hc : ∀ t : FillTab, fillCountry (fillCountry t) = fillCountry t := by
    intro t
    simp only [fillCountry, ffillZero_idem]
  refine ⟨hc, ?_⟩
  intro T
  induction T with
  | nil => rfl
  | cons p ps ih =>
    simp only [fillTable, List.map_cons] at ih ⊢
    rw [hc p.2, ih]

/-! ### Branch values and range bounds of the transform -/

theorem tm_eq_1 (a b : ℚ) :
    transform_to_mobility 1 a b true = a / 3 * (1 - (0.28375 : ℚ)) + 0.28375 * b := by
  norm_num [transform_to_mobility]

theorem tm_eq_2 (a b : ℚ) :
    transform_to_mobility 2 a b true = a / 3 * (1 - (0.28375 : ℚ)) + 0.28375 * b := by
  norm_num [transform_to_mobility]

theorem tm_eq_3 (a b : ℚ) :
    transform_to_mobility 3 a b true = a / 2 * (1 - (0.28375 : ℚ)) + 0.28375 * b := by
  norm_num [transform_to_mobility]

theorem tm_eq_4 (a b : ℚ) :
    transform_to_mobility 4 a b true = a / 4 * (1 - (0.28375 : ℚ)) + 0.28375 * b := by
  norm_num [transform_to_mobility]

theorem tm_eq_5 (a b : ℚ) :
    transform_to_mobility 5 a b true = a / 2 * (1 - (0.28375 : ℚ)) + 0.28375 * b := by
  norm_num [transform_to_mobility]

theorem tm_eq_6 (a b : ℚ) :
    transform_to_mobility 6 a b true = a / 3 * (1 - (0.28375 : ℚ)) + 0.28375 * b := by
  norm_num [transform_to_mobility]

theorem tm_eq_7 (a b : ℚ) :
    transform_to_mobility 7 a b true = a / 2 * (1 - (0.28375 : ℚ)) + 0.28375 * b := by
  norm_num [transform_to_mobility]

theorem tm_eq_9 (a b : ℚ) :
    transform_to_mobility 9 a b true = a / 2 * (1 - (0.28375 : ℚ)) + 0.28375 * b := by
  norm_num [transform_to_mobility]

theorem tm_eq_8 (a b : ℚ) (hf : Bool) : transform_to_mobility 8 a b hf = a / 4 := by
  norm_num [transform_to_mobility]

theorem blend_bounds (d a g : ℚ) (hd : 0 < d) (h0 : 0 ≤ a) (h1 : a ≤ d)
    (hg : g = 0 ∨ g = 1) :
    0 ≤ a / d * (1 - (0.28375 : ℚ)) + 0.28375 * g ∧
    a / d * (1 - (0.28375 : ℚ)) + 0.28375 * g ≤ 1 := by
  have q0 : 0 ≤ a / d := div_nonneg h0 hd.le
  have q1 : a / d ≤ 1 := (div_le_one hd).mpr h1
  rcases hg with hg | hg <;> subst hg <;> constructor <;> nlinarith

theorem mapT_bound (k : ℕ) (d : ℚ) (hd : 0 < d)
    (heq : ∀ a b : ℚ, transform_to_mobility k a b true
      = a / d * (1 - (0.28375 : ℚ)) + 0.28375 * b)
    (raws flags : List ℚ) (hr : ∀ x ∈ raws, 0 ≤ x ∧ x ≤ d)
    (hf : ∀ x ∈ flags, x = 0 ∨ x = 1) :
    ∀ x ∈ mapT k raws flags, 0 ≤ x ∧ x ≤ 1 := by
  intro x hx
  obtain ⟨u, hu, v, hv, hxv⟩ := mem_zipWith_ex raws flags x hx
  rw [hxv, heq u v]
  exact blend_bounds d u v hd (hr u hu).1 (hr u hu).2 (hf v hv)

theorem map8_bound (l : List ℚ) (hl : ∀ x ∈ l, 0 ≤ x ∧ x ≤ 4) :
    ∀ x ∈ l.map (fun a => transform_to_mobility 8 a 0 false), 0 ≤ x ∧ x ≤ 1 := by
  intro x hx
  obtain ⟨a, ha, rfl⟩ := List.mem_map.mp hx
  rw [tm_eq_8]
  refine ⟨div_nonneg (hl a ha).1 (by norm_num), ?_⟩
  rw [div_le_one (by norm_num)]
  exact (hl a ha).2

theorem addCols_bound (a b : List ℚ) (A B : ℚ)
    (ha : ∀ x ∈ a, 0 ≤ x ∧ x ≤ A) (hb : ∀ x ∈ b, 0 ≤ x ∧ x ≤ B) :
    ∀ x ∈ addCols a b, 0 ≤ x ∧ x ≤ A + B := by
  intro x hx
  obtain ⟨u, hu, v, hv, hxv⟩ := mem_zipWith_ex a b x hx
  have h1 := ha u hu
  have h2 := hb v hv
  rw [hxv]
  constructor <;> [linarith; linarith]

theorem sum9_bound (a b c d e f g h i : List ℚ)
    (ha : ∀ x ∈ a, 0 ≤ x ∧ x ≤ 1) (hb : ∀ x ∈ b, 0 ≤ x ∧ x ≤ 1)
    (hc : ∀ x ∈ c, 0 ≤ x ∧ x ≤ 1) (hd : ∀ x ∈ d, 0 ≤ x ∧ x ≤ 1)
    (he : ∀ x ∈ e, 0 ≤ x ∧ x ≤ 1) (hf : ∀ x ∈ f, 0 ≤ x ∧ x ≤ 1)
    (hg : ∀ x ∈ g, 0 ≤ x ∧ x ≤ 1) (hh : ∀ x ∈ h, 0 ≤ x ∧ x ≤ 1)
    (hi : ∀ x ∈ i, 0 ≤ x ∧ x ≤ 1) :
    ∀ x ∈ sum9 a b c d e f g h i, 0 ≤ x ∧ x ≤ 9 := by
  have b8 := addCols_bound h i 1 1 hh hi
  have b7 := addCols_bound g _ 1 _ hg b8
  have b6 := addCols_bound f _ 1 _ hf b7
  have b5 := addCols_bound e _ 1 _ he b6
  have b4 := addCols_bound d _ 1 _ hd b5
  have b3 := addCols_bound c _ 1 _ hc b4
  have b2 := addCols_bound b _ 1 _ hb b3
  have b1 := addCols_bound a _ 1 _ ha b2
  intro x hx
  have hb1 := b1 x hx
  constructor <;> [exact hb1.1; linarith [hb1.2]]

theorem extendCountry_wf (r : RawTab) (hw : wfRaw r) : wfFill (extendCountry r) := by
  obtain ⟨e1, e2, e3, e4, e5, e6, e7, e8, e9, e10, e11, e12, e13, e14, e15, e16, e17,
    e18, e19, e20⟩ := hw
  simp [wfFill, extendCountry, mapT, List.length_zipWith, List.length_map,
    e1, e2, e3, e4, e5, e6, e7, e8, e9, e10, e11, e12, e13, e14, e15, e16, e17, e18,
    e19, e20, min_self]

/-! ### Claim C6 -/

/-- Claim C6: for every country whose raw ordinals are within their
documented ranges (0..2 for indices 3,5,7,9 i.e. C3,C5,C7,H1; 0..3 for
1,2,6; 0..4 for 4 and 8), whose flags are in {0,1} and whose
StringencyIndex is in [0,100], the cumulative columns Pt, Mt, St
produced by the transform-then-fill pipeline are non-decreasing along
the country's date-ordered rows. -/
theorem cumulative_monotone (r : RawTab) (hw : wfRaw r)
    (hh1 : ∀ x ∈ r.h1, 0 ≤ x ∧ x ≤ 2) (hh1f : ∀ x ∈ r.h1f, x = 0 ∨ x = 1)
    (hc1 : ∀ x ∈ r.c1, 0 ≤ x ∧ x ≤ 3) (hf1 : ∀ x ∈ r.f1, x = 0 ∨ x = 1)
    (hc2 : ∀ x ∈ r.c2, 0 ≤ x ∧ x ≤ 3) (hf2 : ∀ x ∈ r.f2, x = 0 ∨ x = 1)
    (hc3 : ∀ x ∈ r.c3, 0 ≤ x ∧ x ≤ 2) (hf3 : ∀ x ∈ r.f3, x = 0 ∨ x = 1)
    (hc4 : ∀ x ∈ r.c4, 0 ≤ x ∧ x ≤ 4) (hf4 : ∀ x ∈ r.f4, x = 0 ∨ x = 1)
    (hc5 : ∀ x ∈ r.c5, 0 ≤ x ∧ x ≤ 2) (hf5 : ∀ x ∈ r.f5, x = 0 ∨ x = 1)
    (hc6 : ∀ x ∈ r.c6, 0 ≤ x ∧ x ≤ 3) (hf6 : ∀ x ∈ r.f6, x = 0 ∨ x = 1)
    (hc7 : ∀ x ∈ r.c7, 0 ≤ x ∧ x ≤ 2) (hf7 : ∀ x ∈ r.f7, x = 0 ∨ x = 1)
    (hc8 : ∀ x ∈ r.c8, 0 ≤ x ∧ x ≤ 4)
    (hsi : ∀ x ∈ r.si, 0 ≤ x ∧ x ≤ 100)
    (j : ℕ) (hj : j + 1 < r.cc.length) :
    (fillCountry (extendCountry r)).Pt.getD j 0 ≤
      (fillCountry (extendCountry r)).Pt.getD (j + 1) 0 ∧
    (fillCountry (extendCountry r)).Mt.getD j 0 ≤
      (fillCountry (extendCountry r)).Mt.getD (j + 1) 0 ∧
    (fillCountry (extendCountry r)).St.getD j 0 ≤
      (fillCountry (extendCountry r)).St.getD (j + 1) 0 := by
  have hwf : wfFill (extendCountry r) := extendCountry_wf r hw
  obtain ⟨hptl, hmtl, hstl⟩ := fillCountry_len (extendCountry r) hwf
  have hnone : ∀ y : ℚ, (none : Option ℚ) = some y → 0 ≤ y ∧ y ≤ 1 :=
    fun y hy => Option.noConfusion hy
  have hb01 : (0 : ℚ) ≤ 0 ∧ (0 : ℚ) ≤ 1 := ⟨le_refl 0, by norm_num⟩
  have hbs1 : ∀ x ∈ ffillZero none (extendCountry r).s1, 0 ≤ x ∧ x ≤ 1 :=
    ffillZero_pred _ hb01 _ none hnone
      (fun x hx _ => mapT_bound 1 3 (by norm_num) tm_eq_1 r.c1 r.f1 hc1 hf1 x hx)
  have hbs2 : ∀ x ∈ ffillZero none (extendCountry r).s2, 0 ≤ x ∧ x ≤ 1 :=
    ffillZero_pred _ hb01 _ none hnone
      (fun x hx _ => mapT_bound 2 3 (by norm_num) tm_eq_2 r.c2 r.f2 hc2 hf2 x hx)
  have hbs3 : ∀ x ∈ ffillZero none (extendCountry r).s3, 0 ≤ x ∧ x ≤ 1 :=
    ffillZero_pred _ hb01 _ none hnone
      (fun x hx _ => mapT_bound 3 2 (by norm_num) tm_eq_3 r.c3 r.f3 hc3 hf3 x hx)
  have hbs4 : ∀ x ∈ ffillZero none (extendCountry r).s4, 0 ≤ x ∧ x ≤ 1 :=
    ffillZero_pred _ hb01 _ none hnone
      (fun x hx _ => mapT_bound 4 4 (by norm_num) tm_eq_4 r.c4 r.f4 hc4 hf4 x hx)
  have hbs5 : ∀ x ∈ ffillZero none (extendCountry r).s5, 0 ≤ x ∧ x ≤ 1 :=
    ffillZero_pred _ hb01 _ none hnone
      (fun x hx _ => mapT_bound 5 2 (by norm_num) tm_eq_5 r.c5 r.f5 hc5 hf5 x hx)
  have hbs6 : ∀ x ∈ ffillZero none (extendCountry r).s6, 0 ≤ x ∧ x ≤ 1 :=
    ffillZero_pred _ hb01 _ none hnone
      (fun x hx _ => mapT_bound 6 3 (by norm_num) tm_eq_6 r.c6 r.f6 hc6 hf6 x hx)
  have hbs7 : ∀ x ∈ ffillZero none (extendCountry r).s7, 0 ≤ x ∧ x ≤ 1 :=
    ffillZero_pred _ hb01 _ none hnone
      (fun x hx _ => mapT_bound 7 2 (by norm_num) tm_eq_7 r.c7 r.f7 hc7 hf7 x hx)
  have hbs8 : ∀ x ∈ ffillZero none (extendCountry r).s8, 0 ≤ x ∧ x ≤ 1 :=
    ffillZero_pred _ hb01 _ none hnone
      (fun x hx _ => map8_bound r.c8 hc8 x hx)
  have hbs9 : ∀ x ∈ ffillZero none (extendCountry r).s9, 0 ≤ x ∧ x ≤ 1 :=
    ffillZero_pred _ hb01 _ none hnone
      (fun x hx _ => mapT_bound 9 2 (by norm_num) tm_eq_9 r.h1 r.h1f hh1 hh1f x hx)
  have hptB : ∀ x ∈ (fillCountry (extendCountry r)).pt, 0 ≤ x ∧ x ≤ 1 := by
    rw [fillCountry_pt]
    intro x hx
    obtain ⟨y, hy, rfl⟩ := List.mem_map.mp hx
    have hby := sum9_bound _ _ _ _ _ _ _ _ _ hbs1 hbs2 hbs3 hbs4 hbs5 hbs6 hbs7 hbs8
      hbs9 y hy
    refine ⟨div_nonneg hby.1 (by norm_num), ?_⟩
    rw [div_le_one (by norm_num)]
    linarith [hby.2]
  have hmtB : ∀ x ∈ (fillCountry (extendCountry r)).mt, 0 ≤ x ∧ x ≤ 1 := by
    rw [fillCountry_mt]
    intro x hx
    obtain ⟨y, hy, rfl⟩ := List.mem_map.mp hx
    have hby := hptB y hy
    constructor <;> [linarith [hby.2]; linarith [hby.1]]
  have hsiB : ∀ x ∈ ffillZero none (extendCountry r).si, 0 ≤ x ∧ x ≤ 100 :=
    ffillZero_pred _ ⟨le_refl 0, by norm_num⟩ _ none
      (fun y hy => Option.noConfusion hy) (fun x hx _ => hsi x hx)
  have hstB : ∀ x ∈ (fillCountry (extendCountry r)).st, 0 ≤ x ∧ x ≤ 1 := by
    rw [fillCountry_st]
    intro x hx
    obtain ⟨y, hy, rfl⟩ := List.mem_map.mp hx
    have hby := hsiB y hy
    refine ⟨div_nonneg hby.1 (by norm_num), ?_⟩
    rw [div_le_one (by norm_num)]
    linarith [hby.2]
  refine ⟨?_, ?_, ?_⟩
  · rw [fillCountry_Pt, cumsum_step _ j (by rw [hptl]; exact hj)]
    have hnn := (hptB _ (getD_mem _ (j + 1) 0 (by rw [hptl]; exact hj))).1
    linarith
  · rw [fillCountry_Mt, cumsum_step _ j (by rw [hmtl]; exact hj)]
    have hnn := (hmtB _ (getD_mem _ (j + 1) 0 (by rw [hmtl]; exact hj))).1
    linarith
  · rw [fillCountry_St, cumsum_step _ j (by rw [hstl]; exact hj)]
    have hnn := (hstB _ (getD_mem _ (j + 1) 0 (by rw [hstl]; exact hj))).1
    linarith

theorem cumulative_monotone_witness :
    (fillCountry (extendCountry rawEx)).St.getD 0 0 ≤
      (fillCountry (extendCountry rawEx)).St.getD 1 0 :=
  (cumulative_monotone rawEx (by decide) (by decide) (by decide) (by decide) (by decide)
    (by decide) (by decide) (by decide) (by decide) (by decide) (by decide) (by decide)
    (by decide) (by decide) (by decide) (by decide) (by decide) (by decide) (by decide)
    0 (by decide)).2.2

/-! ### Helper lemmas for the feature stage -/

theorem diffFrom_length (l : List ℚ) : ∀ p, (diffFrom p l).length = l.length := by
  induction l with
  | nil => intro p; rfl
  | cons x xs ih => intro p; simp [diffFrom, ih]

theorem diff0_length (l : List ℚ) : (diff0 l).length = l.length := by
  cases l with
  | nil => rfl
  | cons x xs => simp [diff0, diffFrom_length]

theorem diff0_getD_zero (l : List ℚ) : (diff0 l).getD 0 0 = 0 := by
  cases l <;> rfl

theorem diffFrom_getD (xs : List ℚ) : ∀ (p : ℚ) (j : ℕ), j < xs.length →
    (diffFrom p xs).getD j 0 = xs.getD j 0 - (p :: xs).getD j 0 := by
  induction xs with
  | nil => intro p j h; simp at h
  | cons x xs ih =>
    intro p j h
    cases j with
    | zero => simp [diffFrom]
    | succ j =>
      have hj : j < xs.length := by simpa using h
      simpa [diffFrom, List.getD_cons_succ] using ih x j hj

theorem diff0_getD_succ (l : List ℚ) (j : ℕ) (h : j + 1 < l.length) :
    (diff0 l).getD (j + 1) 0 = l.getD (j + 1) 0 - l.getD j 0 := by
  cases l with
  | nil => simp at h
  | cons x xs =>
    have hj : j < xs.length := by simpa using h
    show (0 :: diffFrom x xs).getD (j + 1) 0 = _
    rw [List.getD_cons_succ, diffFrom_getD xs x j hj]
    simp only [List.getD_cons_succ]

theorem zip_map_getD {γ : Type} (f : ℤ × ℚ → γ) (ds : List ℤ) :
    ∀ (cs : List ℚ) (j : ℕ) (e : γ), j < ds.length → j < cs.length →
    ((ds.zip cs).map f).getD j e = f (ds.getD j 0, cs.getD j 0) := by
  induction ds with
  | nil => intro cs j e h1 h2; simp at h1
  | cons d ds ih =>
    intro cs j e h1 h2
    cases cs with
    | nil => simp at h2
    | cons c cs =>
      cases j with
      | zero => rfl
      | succ j =>
        have h1j : j < ds.length := by simpa using h1
        have h2j : j < cs.length := by simpa using h2
        simpa [List.zip_cons_cons, List.getD_cons_succ] using ih cs j e h1j h2j

theorem mem_posDates (ds : List ℤ) : ∀ (cs : List ℚ) (y : ℤ),
    y ∈ posDates ds cs ↔
      ∃ k, k < ds.length ∧ k < cs.length ∧ 0 < cs.getD k 0 ∧ y = ds.getD k 0 := by
  induction ds with
  | nil => intro cs y; simp [posDates]
  | cons d ds ih =>
    intro cs y
    cases cs with
    | nil => simp [posDates]
    | cons c cs =>
      by_cases hc : 0 < c
      · have hhead : posDates (d :: ds) (c :: cs) = d :: posDates ds cs := by
          simp [posDates, List.zip_cons_cons, List.filterMap_cons, hc]
        rw [hhead]
        constructor
        · intro hy
          rcases List.mem_cons.mp hy with hy | hy
          · exact ⟨0, by simp, by simp, by simpa using hc, by simpa using hy⟩
          · obtain ⟨k, hk1, hk2, hk3, hk4⟩ := (ih cs y).mp hy
            exact ⟨k + 1, by simpa using hk1, by simpa using hk2,
              by simpa [List.getD_cons_succ] using hk3,
              by simpa [List.getD_cons_succ] using hk4⟩
        · rintro ⟨k, hk1, hk2, hk3, hk4⟩
          cases k with
          | zero => exact List.mem_cons.mpr (Or.inl (by simpa using hk4))
          | succ k =>
            refine List.mem_cons.mpr (Or.inr ((ih cs y).mpr ⟨k, ?_, ?_, ?_, ?_⟩))
            · simpa using hk1
            · simpa using hk2
            · simpa [List.getD_cons_succ] using hk3
            · simpa [List.getD_cons_succ] using hk4
      · have hhead : posDates (d :: ds) (c :: cs) = posDates ds cs := by
          simp [posDates, List.zip_cons_cons, List.filterMap_cons, hc]
        rw [hhead, ih cs y]
        constructor
        · rintro ⟨k, hk1, hk2, hk3, hk4⟩
          exact ⟨k + 1, by simpa using hk1, by simpa using hk2,
            by simpa [List.getD_cons_succ] using hk3,
            by simpa [List.getD_cons_succ] using hk4⟩
        · rintro ⟨k, hk1, hk2, hk3, hk4⟩
          cases k with
          | zero => exact absurd (by simpa using hk3) hc
          | succ k =>
            exact ⟨k, by simpa using hk1, by simpa using hk2,
              by simpa [List.getD_cons_succ] using hk3,
              by simpa [List.getD_cons_succ] using hk4⟩

theorem min?_eq_some_iff_int {xs : List ℤ} {a : ℤ} :
    xs.min? = some a ↔ a ∈ xs ∧ ∀ b ∈ xs, a ≤ b :=
  List.min?_eq_some_iff (fun x => le_refl x) (fun x y => min_choice x y)
    (fun _ _ _ => le_min_iff)

theorem firstCaseDate_eq (ds : List ℤ) (cs : List ℚ) (hlen : ds.length = cs.length)
    (hmon : ∀ j, j < cs.length → ∀ i, i < j → ds.getD i 0 < ds.getD j 0)
    (j0 : ℕ) (hj0 : j0 < cs.length) (h0 : 0 < cs.getD j0 0)
    (hz : ∀ k, k < j0 → cs.getD k 0 = 0) :
    firstCaseDate ds cs = some (ds.getD j0 0) := by
  rw [firstCaseDate, min?_eq_some_iff_int]
  constructor
  · exact (mem_posDates ds cs _).mpr ⟨j0, hlen ▸ hj0, hj0, h0, rfl⟩
  · intro b hb
    obtain ⟨k, hk1, hk2, hk3, hk4⟩ := (mem_posDates ds cs b).mp hb
    by_cases hkj : k < j0
    · rw [hz k hkj] at hk3
      exact absurd hk3 (lt_irrefl 0)
    · rcases eq_or_lt_of_le (not_lt.mp hkj) with he | hl
      · rw [hk4, ← he]
      · rw [hk4]
        exact (hmon k hk2 j0 hl).le

/-! ### Claim C4 -/

/-- Claim C4: for each country, `create_features` anchors on the
earliest date with ConfirmedCases > 0 (index j0, all earlier rows
zero); every row from that date onward gets DaysCountFromFirstCase =
days elapsed since that date (0 on the first-case row, 1 the next day,
...), rows before it keep the default 0, and a country whose
ConfirmedCases is never positive keeps 0 on all rows.  Stated for a
country slice with strictly increasing dates and a once-positive,
stays-positive case series — the shape `create_features` receives
after sorting and forward filling. -/
theorem days_from_first_case_spec (t : FeatIn) (hw : wfFeat t)
    (hmon : ∀ j, j < t.cc.length → ∀ i, i < j → t.date.getD i 0 < t.date.getD j 0)
    (hpos : ∀ j, j < t.cc.length → ∀ i, i ≤ j → 0 < t.cc.getD i 0 → 0 < t.cc.getD j 0) :
    (∀ j0, j0 < t.cc.length → 0 < t.cc.getD j0 0 →
      (∀ k, k < j0 → t.cc.getD k 0 = 0) →
      ∀ j, j < t.cc.length →
        (featuresCountry t).dcfc.getD j 0 =
          if j0 ≤ j then t.date.getD j 0 - t.date.getD j0 0 else 0) ∧
    ((∀ x ∈ t.cc, x = 0) → ∀ x ∈ (featuresCountry t).dcfc, x = 0) := by
  obtain ⟨hd, hcd, hrc⟩ := hw
  constructor
  · intro j0 hj0 h0 hz j hj
    have hfcd := firstCaseDate_eq t.date t.cc hd hmon j0 hj0 h0 hz
    have hdc : (featuresCountry t).dcfc = daysCount t.date t.cc := rfl
    rw [hdc, daysCount, zip_map_getD _ t.date t.cc j 0 (hd ▸ hj) hj]
    simp only [hfcd, Option.getD_some]
    by_cases hcase : j0 ≤ j
    · have hcj : 0 < t.cc.getD j 0 := hpos j hj j0 hcase h0
      rw [if_pos hcj, if_pos hcase]
    · have hcj : ¬ 0 < t.cc.getD j 0 := by
        rw [hz j (not_le.mp hcase)]
        exact lt_irrefl 0
      rw [if_neg hcj, if_neg hcase]
  · intro hall x hx
    have hdc : x ∈ (t.date.zip t.cc).map
        (fun p => if 0 < p.2 then p.1 - (firstCaseDate t.date t.cc).getD 0 else 0) := hx
    obtain ⟨⟨d, c⟩, hp, rfl⟩ := List.mem_map.mp hdc
    have hc2 : c ∈ t.cc := (List.of_mem_zip hp).2
    rw [hall c hc2]
    simp

theorem days_from_first_case_spec_witness :
    (featuresCountry featEx).dcfc.getD 4 0 = 2 := by
  have h := (days_from_first_case_spec featEx (by decide) (by decide) (by decide)).1 2
    (by decide) (by decide) (by decide) 4 (by decide)
  simpa [featEx] using h

/-! ### Claim C5 -/

/-- Claim C5: the daily-delta columns of ConfirmedCases,
ConfirmedDeaths, Recovered and Active equal the per-country
day-over-day difference in date order, and the first row of each
country's series — which has no prior value to diff against — is 0
regardless of that row's raw count value. -/
theorem daily_delta_spec (t : FeatIn) (hw : wfFeat t) :
    ((featuresCountry t).dailyCC.getD 0 0 = 0 ∧
     (featuresCountry t).dailyCD.getD 0 0 = 0 ∧
     (featuresCountry t).dailyRC.getD 0 0 = 0 ∧
     (featuresCountry t).dailyAC.getD 0 0 = 0) ∧
    (∀ j, j + 1 < t.cc.length →
      (featuresCountry t).dailyCC.getD (j + 1) 0 = t.cc.getD (j + 1) 0 - t.cc.getD j 0 ∧
      (featuresCountry t).dailyCD.getD (j + 1) 0 = t.cd.getD (j + 1) 0 - t.cd.getD j 0 ∧
      (featuresCountry t).dailyRC.getD (j + 1) 0 = t.rc.getD (j + 1) 0 - t.rc.getD j 0 ∧
      (featuresCountry t).dailyAC.getD (j + 1) 0 =
        (featuresCountry t).active.getD (j + 1) 0 -
          (featuresCountry t).active.getD j 0) := by
  obtain ⟨hd, hcd, hrc⟩ := hw
  have hact : (featuresCountry t).active.length = t.cc.length := by
    show (List.zipWith _ (List.zipWith _ t.cc t.cd) t.rc).length = _
    rw [List.length_zipWith, List.length_zipWith, hcd, hrc, min_self, min_self]
  refine ⟨⟨diff0_getD_zero t.cc, diff0_getD_zero t.cd, diff0_getD_zero t.rc,
    diff0_getD_zero _⟩, ?_⟩
  intro j hj
  exact ⟨diff0_getD_succ t.cc j hj, diff0_getD_succ t.cd j (hcd ▸ hj),
    diff0_getD_succ t.rc j (hrc ▸ hj), diff0_getD_succ _ j (hact ▸ hj)⟩

theorem daily_delta_spec_witness :
    (featuresCountry featEx).dailyCC.getD 0 0 = 0 :=
  (daily_delta_spec featEx (by decide)).1.1

/-! ### Claim C9 -/

/-- Claim C9: each relative-rate column equals the corresponding count
divided by Population; when the population merge found no match for a
country, the relative-rate values of that country's rows are
undefined (`none`) while every other column is unchanged. -/
theorem relative_rates_spec (t : FeatIn) (hw : wfFeat t) (j : ℕ)
    (hj : j < t.cc.length) :
    (∀ p : ℚ, t.pop = some p →
      ((featuresCountry t).relCC.getD j none = some (t.cc.getD j 0 / p) ∧
       (featuresCountry t).relCD.getD j none = some (t.cd.getD j 0 / p) ∧
       (featuresCountry t).relRC.getD j none = some (t.rc.getD j 0 / p) ∧
       (featuresCountry t).relAC.getD j none =
         some ((featuresCountry t).active.getD j 0 / p))) ∧
    (t.pop = none →
      ((featuresCountry t).relCC.getD j none = none ∧
       (featuresCountry t).relCD.getD j none = none ∧
       (featuresCountry t).relRC.getD j none = none ∧
       (featuresCountry t).relAC.getD j none = none)) ∧
    (∀ q : Option ℚ,
      (featuresCountry { t with pop := q }).date = (featuresCountry t).date ∧
      (featuresCountry { t with pop := q }).cc = (featuresCountry t).cc ∧
      (featuresCountry { t with pop := q }).cd = (featuresCountry t).cd ∧
      (featuresCountry { t with pop := q }).rc = (featuresCountry t).rc ∧
      (featuresCountry { t with pop := q }).active = (featuresCountry t).active ∧
      (featuresCountry { t with pop := q }).dailyCC = (featuresCountry t).dailyCC ∧
      (featuresCountry { t with pop := q }).dailyCD = (featuresCountry t).dailyCD ∧
      (featuresCountry { t with pop := q }).dailyRC = (featuresCountry t).dailyRC ∧
      (featuresCountry { t with pop := q }).dailyAC = (featuresCountry t).dailyAC ∧
      (featuresCountry { t with pop := q }).dcfc = (featuresCountry t).dcfc) := by
  obtain ⟨hd, hcd, hrc⟩ := hw
  have hact : (featuresCountry t).active.length = t.cc.length := by
    show (List.zipWith _ (List.zipWith _ t.cc t.cd) t.rc).length = _
    rw [List.length_zipWith, List.length_zipWith, hcd, hrc, min_self, min_self]
  have hCC : (featuresCountry t).relCC
      = t.cc.map (fun x => t.pop.map (fun p => x / p)) := rfl
  have hCD : (featuresCountry t).relCD
      = t.cd.map (fun x => t.pop.map (fun p => x / p)) := rfl
  have hRC : (featuresCountry t).relRC
      = t.rc.map (fun x => t.pop.map (fun p => x / p)) := rfl
  have hAC : (featuresCountry t).relAC
      = (featuresCountry t).active.map (fun x => t.pop.map (fun p => x / p)) := rfl
  refine ⟨?_, ?_, ?_⟩
  · intro p hp
    rw [hCC, hCD, hRC, hAC, getD_map _ _ j 0 none hj, getD_map _ _ j 0 none (hcd ▸ hj),
      getD_map _ _ j 0 none (hrc ▸ hj), getD_map _ _ j 0 none (hact ▸ hj), hp]
    exact ⟨rfl, rfl, rfl, rfl⟩
  · intro hp
    rw [hCC, hCD, hRC, hAC, getD_map _ _ j 0 none hj, getD_map _ _ j 0 none (hcd ▸ hj),
      getD_map _ _ j 0 none (hrc ▸ hj), getD_map _ _ j 0 none (hact ▸ hj), hp]
    exact ⟨rfl, rfl, rfl, rfl⟩
  · intro q
    exact ⟨rfl, rfl, rfl, rfl, rfl, rfl, rfl, rfl, rfl, rfl⟩

theorem relative_rates_spec_witness :
    (featuresCountry featEx2).relCC.getD 0 none = some (0.0001 : ℚ) := by
  have h := ((relative_rates_spec featEx2 (by decide) 0 (by decide)).1 1000000 rfl).1
  rw [h]
  norm_num [featEx2]

/-! ### Claim C8 -/

theorem filter_map_snd {α β : Type} (g : α → β) (X : String)
    (l : List (String × α)) :
    (l.map (fun p => (p.1, g p.2))).filter (fun p => p.1 != X) =
      (l.filter (fun p => p.1 != X)).map (fun p => (p.1, g p.2)) := by
  induction l with
  | nil => rfl
  | cons p ps ih =>
    cases hbe : (p.1 != X) with
    | false => simp [List.filter_cons, hbe, ih]
    | true => simp [List.filter_cons, hbe, ih]

/-- Claim C8: per-country noninterference — if two tables agree on the
slices of every country other than X, then after `fill_missing_values`
(respectively `create_features`) they still agree on every country
other than X: no forward-fill state, cumulative sum or first-case
anchor leaks across countries. -/
theorem per_country_noninterference (X : String)
    (T1 T2 : List (String × FillTab)) (U1 U2 : List (String × FeatIn))
    (hFill : T1.filter (fun p => p.1 != X) = T2.filter (fun p => p.1 != X))
    (hFeat : U1.filter (fun p => p.1 != X) = U2.filter (fun p => p.1 != X)) :
    (fillTable T1).filter (fun p => p.1 != X) =
      (fillTable T2).filter (fun p => p.1 != X) ∧
    (featTable U1).filter (fun p => p.1 != X) =
      (featTable U2).filter (fun p => p.1 != X) := by
  constructor
  · rw [fillTable, fillTable, filter_map_snd, filter_map_snd, hFill]
  · rw [featTable, featTable, filter_map_snd, filter_map_snd, hFeat]

theorem per_country_noninterference_witness :
    (featTable [("AAA", featEx), ("BBB", featEx2)]).filter (fun p => p.1 != "AAA") =
      (featTable [("AAA", featEx3), ("BBB", featEx2)]).filter
        (fun p => p.1 != "AAA") :=
  (per_country_noninterference "AAA" [] [] [("AAA", featEx), ("BBB", featEx2)]
    [("AAA", featEx3), ("BBB", featEx2)] rfl (by decide)).2

end Covid

